import Mathlib

/-!
# Verification of the gitlab-client caching and time-period aggregation layer

Shallow embedding of the repository's cache store (`src/js/utils/store.js`),
credential store (`src/js/modules/auth.js`), period aggregator
(`src/js/modules/app.js`: `getWeekKey`, `groupTimeLogsByWeek` and the
day-grouping step of `loadTimeLogs`) and duration formatting
(`src/js/utils/gitlab.js`: `formatDuration`).

Modelling conventions:
* `localStorage` is an association list from string keys to stored strings.
  A stored string is either the `JSON.stringify` image of a JSON value
  (which `JSON.parse` recovers) or a string that is not valid JSON
  (on which `JSON.parse` throws, caught by the source's `safeParse`).
* JSON values are the inductive `Json`; JavaScript truthiness of parsed
  values (the source's `safeParse(v) || null` pattern) is `jsTruthy`.
* Dates are modelled at day granularity as integers counting days from
  the epoch 1970-01-01 (a Thursday), after the `setHours(0,0,0,0)`
  truncation the source performs, assuming a UTC environment (the source
  mixes local-time accessors with `toISOString`; in UTC they agree).
  `Date.prototype.getDay` is `jsGetDay` (0 = Sunday .. 6 = Saturday).
  The ISO date string `d.toISOString().split("T")[0]` used as an object
  key in the source is in bijection with the day number, so week and day
  keys are carried as the day numbers themselves.
* JavaScript exceptions are modelled by total functions returning
  `Option`: `none` is the JS `null` result of the catch-all paths.
-/

/-- A JSON value (`JSON.parse` result / `JSON.stringify` argument).
Numbers are modelled as integers, which covers every value this
repository stores. -/
inductive Json where
  | null
  | bool (b : Bool)
  | num (n : Int)
  | str (s : String)
  | arr (elems : List Json)
  | obj (fields : List (String × Json))

/-- JavaScript truthiness of a (parsed) JSON value: `null`, `false`, `0`
and `""` are falsy; every array and object is truthy. -/
def jsTruthy : Json → Bool
  | Json.null => false
  | Json.bool b => b
  | Json.num n => n != 0
  | Json.str s => s != ""
  | Json.arr _ => true
  | Json.obj _ => true

/-- JavaScript `a || b` on JSON values: `b` when `a` is falsy. -/
def jsOr (a b : Json) : Json := if jsTruthy a then a else b

/-- A string held in `localStorage`: either the `JSON.stringify` image of
a JSON value (`JSON.parse` recovers the value), or a string that is not
valid JSON (`JSON.parse` throws on it). -/
inductive StoredVal where
  | ser (v : Json)
  | malformed (s : String)

/-- The `localStorage` state: an association list from keys to stored
strings (first binding for a key wins; `setItem` replaces). -/
abbrev LocalStorage := List (String × StoredVal)

/-- Model of `localStorage.getItem(k)`: the stored string, or JS `null` (here
`none`) when the key is absent. -/
def getItem (ls : LocalStorage) (k : String) : Option StoredVal :=
  (ls.find? (fun e => e.1 == k)).map (fun e => e.2)

/-- Model of `localStorage.setItem(k, v)`: bind `k` to `v`, replacing any
previous binding. -/
def setItem (ls : LocalStorage) (k : String) (v : StoredVal) : LocalStorage :=
  (k, v) :: ls.filter (fun e => e.1 != k)

/-- Model of `localStorage.removeItem(k)`. -/
def removeItem (ls : LocalStorage) (k : String) : LocalStorage :=
  ls.filter (fun e => e.1 != k)

/-- JS `String.prototype.startsWith`: the receiver begins with the given
search string (code-unit prefix test). -/
def jsStartsWith (s pre : String) : Bool :=
  pre.data.isPrefixOf s.data

/-- Source `store.js` `keyFor`: prepend the cache namespace `PREFIX`
(`"appStore:"`) to a key. -/
def keyFor (k : String) : String := "appStore:" ++ k

/-- Source `store.js` `safeParse` applied to a `getItem` result: `JSON.parse`
of the stored string, `null` on a parse failure.  `JSON.parse(null)`
parses the coerced string `"null"` to the JSON `null` value. -/
def safeParse : Option StoredVal → Option Json
  | none => some Json.null
  | some (StoredVal.ser v) => some v
  | some (StoredVal.malformed _) => none

/-- The `safeParse(v) || null` pattern of the source's getters: a falsy
parse result (including JSON `null`) is turned into JS `null`. -/
def jsOrNull : Option Json → Option Json
  | some j => if jsTruthy j then some j else none
  | none => none

/-- Source `store.js` `clearAll`: remove every `localStorage` entry whose key
starts with the cache namespace `"appStore:"`. -/
def clearAll (ls : LocalStorage) : LocalStorage :=
  ls.filter (fun e => !(jsStartsWith e.1 ("appStore:")))

/-- Source `store.js` `storeProjects`: `JSON.stringify(projects || [])` under
`keyFor("projects")`. -/
def storeProjects (ls : LocalStorage) (projects : Json) : LocalStorage :=
  setItem ls (keyFor ("projects")) (StoredVal.ser (jsOr projects (Json.arr [])))

/-- Source `store.js` `getProjects`: `safeParse(getItem(...)) || null`. -/
def getProjects (ls : LocalStorage) : Option Json :=
  jsOrNull (safeParse (getItem ls (keyFor ("projects"))))

/-- Source `store.js` `clearProjects`. -/
def clearProjects (ls : LocalStorage) : LocalStorage :=
  removeItem ls (keyFor ("projects"))

/-- Source `store.js` `issuesKey`: `keyFor("issues:" + projectFullPath)`. -/
def issuesKey (projectFullPath : String) : String :=
  keyFor ("issues:" ++ projectFullPath)

/-- Source `store.js` `storeIssues`. -/
def storeIssues (ls : LocalStorage) (projectFullPath : String) (issues : Json) :
    LocalStorage :=
  setItem ls (issuesKey projectFullPath) (StoredVal.ser (jsOr issues (Json.arr [])))

/-- Source `store.js` `getIssues`. -/
def getIssues (ls : LocalStorage) (projectFullPath : String) : Option Json :=
  jsOrNull (safeParse (getItem ls (issuesKey projectFullPath)))

/-- Source `store.js` `clearIssues`. -/
def clearIssues (ls : LocalStorage) (projectFullPath : String) : LocalStorage :=
  removeItem ls (issuesKey projectFullPath)

/-- Source `store.js` `timelogsKey`: `keyFor("timelogs:" + period)` where the
period is a `"YYYY-MM"` string. -/
def timelogsKey (period : String) : String :=
  keyFor ("timelogs:" ++ period)

/-- Source `store.js` `storeTimeLogs`. -/
def storeTimeLogs (ls : LocalStorage) (period : String) (timelogs : Json) :
    LocalStorage :=
  setItem ls (timelogsKey period) (StoredVal.ser (jsOr timelogs (Json.arr [])))

/-- Source `store.js` `getTimeLogs`. -/
def getTimeLogs (ls : LocalStorage) (period : String) : Option Json :=
  jsOrNull (safeParse (getItem ls (timelogsKey period)))

/-- Source `store.js` `clearTimeLogs`. -/
def clearTimeLogs (ls : LocalStorage) (period : String) : LocalStorage :=
  removeItem ls (timelogsKey period)

/-- Source `auth.js` `AUTH_STORAGE_KEY`. -/
def AUTH_STORAGE_KEY : String := "userAuth"

/-- Source `utils.js` `FAVORITES_KEY`. -/
def FAVORITES_KEY : String := "appFavorites"

/-- The credential record object built by `auth.js` `saveCredentials`
(`timestamp` is the `new Date().toISOString()` string, passed here as a
parameter). -/
def authRecord (username token repository timestamp : String) : Json :=
  Json.obj [("username", Json.str username), ("token", Json.str token),
    ("repository", Json.str repository), ("timestamp", Json.str timestamp)]

/-- Source `auth.js` `saveCredentials`: store the credential record under
`AUTH_STORAGE_KEY`, then clear the whole cache store (`store.clearAll`). -/
def saveCredentials (ls : LocalStorage) (username token repository timestamp : String) :
    LocalStorage :=
  clearAll (setItem ls AUTH_STORAGE_KEY
    (StoredVal.ser (authRecord username token repository timestamp)))

/-- Source `auth.js` `clearCredentials`: remove the credential record.  (This is
all it does; it does not touch the cache store.) -/
def clearCredentials (ls : LocalStorage) : LocalStorage :=
  removeItem ls AUTH_STORAGE_KEY

/-- JS `String(n).padStart(2, "0")` for the decimal rendering of a
number: pad on the left with zeros to length 2. -/
def padStart2 (s : String) : String :=
  if s.length = 0 then ("00") else if s.length = 1 then ("0") ++ s else s

/-- The `"YYYY-MM"` period key built by `auth.js` `handleDeleteTimelog`
from the modal's date: `getFullYear() + "-" + String(getMonth() + 1).padStart(2, "0")`.
`monthIndex` is the 0-based `getMonth()` value. -/
def periodKeyOf (year : Nat) (monthIndex : Nat) : String :=
  toString year ++ ("-") ++ padStart2 (toString (monthIndex + 1))

/-- The cache effect of `auth.js` `handleDeleteTimelog` after a
successful remote delete: clear the time-log cache for the `"YYYY-MM"`
period of the deleted entry's spent date (the modal's date input).
The remote call and DOM updates are outside the store model. -/
def handleDeleteTimelogCache (ls : LocalStorage) (year monthIndex : Nat) :
    LocalStorage :=
  clearTimeLogs ls (periodKeyOf year monthIndex)

/-! ## Basic store lemmas -/

theorem string_data_inj {x y : String} (h : x.data = y.data) : x = y := by
  cases x; cases y; exact congrArg String.mk h

theorem string_append_left_cancel {a x y : String} (h : a ++ x = a ++ y) : x = y := by
  apply string_data_inj
  have h2 : (a ++ x).data = (a ++ y).data := congrArg String.data h
  rw [String.data_append, String.data_append] at h2
  exact List.append_cancel_left h2

theorem jsStartsWith_append (a t : String) : jsStartsWith (a ++ t) a = true := by
  unfold jsStartsWith
  rw [String.data_append, List.isPrefixOf_iff_prefix]
  exact List.prefix_append a.data t.data

/-- A string of the cache namespace form `"appStore:" ++ t` is never the
(shorter) credential key `"userAuth"`. -/
theorem keyFor_ne_auth (t : String) : keyFor t ≠ AUTH_STORAGE_KEY := by
  intro h
  have h2 : (keyFor t).data.length = (AUTH_STORAGE_KEY).data.length :=
    congrArg (fun s => s.data.length) h
  unfold keyFor AUTH_STORAGE_KEY at h2
  rw [String.data_append, List.length_append] at h2
  have h9 : ("appStore:").data.length = 9 := by decide
  have h8 : ("userAuth").data.length = 8 := by decide
  omega

/-- The projects key is never a time-log key (the latter is longer). -/
theorem projectsKey_ne_timelogsKey (m : String) : keyFor ("projects") ≠ timelogsKey m := by
  intro h
  have h2 : (keyFor ("projects")).data.length = (timelogsKey m).data.length :=
    congrArg (fun s => s.data.length) h
  unfold timelogsKey keyFor at h2
  rw [String.data_append, String.data_append, String.data_append, List.length_append,
    List.length_append, List.length_append] at h2
  have e1 : ("appStore:").data.length = 9 := by decide
  have e2 : ("projects").data.length = 8 := by decide
  have e3 : ("timelogs:").data.length = 9 := by decide
  omega

theorem findEntry_filter_of_imp (p q : String × StoredVal → Bool) (l : LocalStorage)
    (h : ∀ a, p a = true → q a = true) : (l.filter q).find? p = l.find? p := by
  induction l with
  | nil => rfl
  | cons a l ih =>
    by_cases hp : p a
    · have hq := h a hp
      rw [List.filter_cons, if_pos hq, List.find?_cons_of_pos _ hp,
        List.find?_cons_of_pos _ hp]
    · rw [List.filter_cons]
      by_cases hq : q a
      · rw [if_pos hq, List.find?_cons_of_neg _ hp, List.find?_cons_of_neg _ hp, ih]
      · rw [if_neg hq, List.find?_cons_of_neg _ hp, ih]

theorem findEntry_filter_none (p q : String × StoredVal → Bool) (l : LocalStorage)
    (h : ∀ a, p a = true → q a = false) : (l.filter q).find? p = none := by
  induction l with
  | nil => rfl
  | cons a l ih =>
    rw [List.filter_cons]
    by_cases hq : q a
    · have hp : ¬p a = true := fun hp => by simp [h a hp] at hq
      rw [if_pos hq, List.find?_cons_of_neg _ hp, ih]
    · rw [if_neg hq, ih]

theorem getItem_setItem_self (ls : LocalStorage) (k : String) (v : StoredVal) :
    getItem (setItem ls k v) k = some v := by
  unfold getItem setItem
  rw [List.find?_cons_of_pos]
  · rfl
  · simp

theorem getItem_setItem_ne (ls : LocalStorage) (k k' : String) (v : StoredVal)
    (h : k' ≠ k) : getItem (setItem ls k v) k' = getItem ls k' := by
  unfold getItem setItem
  rw [List.find?_cons_of_neg]
  · rw [findEntry_filter_of_imp]
    intro a ha
    simp only [beq_iff_eq] at ha
    simp [bne_iff_ne, ha, h]
  · simp [Ne.symm h]

theorem getItem_removeItem_self (ls : LocalStorage) (k : String) :
    getItem (removeItem ls k) k = none := by
  unfold getItem removeItem
  rw [findEntry_filter_none]
  · rfl
  · intro a ha
    simp only [beq_iff_eq] at ha
    simp [bne_iff_ne, ha]

theorem getItem_removeItem_ne (ls : LocalStorage) (k k' : String) (h : k' ≠ k) :
    getItem (removeItem ls k) k' = getItem ls k' := by
  unfold getItem removeItem
  rw [findEntry_filter_of_imp]
  intro a ha
  simp only [beq_iff_eq] at ha
  simp [bne_iff_ne, ha, h]

theorem getItem_clearAll (ls : LocalStorage) (k : String) :
    getItem (clearAll ls) k =
      if jsStartsWith k ("appStore:") then none else getItem ls k := by
  by_cases hk : jsStartsWith k ("appStore:")
  · rw [if_pos hk]
    unfold getItem clearAll
    rw [findEntry_filter_none]
    · rfl
    · intro a ha
      simp only [beq_iff_eq] at ha
      simp [ha, hk]
  · rw [if_neg hk]
    unfold getItem clearAll
    rw [findEntry_filter_of_imp]
    intro a ha
    simp only [beq_iff_eq] at ha
    simp [ha, hk]

/-! ## Period aggregator (`app.js`) -/

/-- Model of `Date.prototype.getDay` at day granularity: day-of-week of day
number `d` (days since 1970-01-01, a Thursday); 0 = Sunday .. 6 =
Saturday. -/
def jsGetDay (d : Int) : Int := (d + 4) % 7

/-- Source `app.js` `getWeekKey` lines 660-662: days to go back from a weekday
to reach Monday (`day === 0 ? 6 : day - 1`). -/
def daysToSubtract (day : Int) : Int := if day = 0 then 6 else day - 1

/-- The Monday of the week containing day `d` (the subtraction performed
both by `getWeekKey` and by the pre-seeding loop of
`groupTimeLogsByWeek`). -/
def mondayOf (d : Int) : Int := d - daysToSubtract (jsGetDay d)

/-- Source `app.js` `getWeekKey`: the ISO date string of the Monday of the week
of the given date, carried here as the Monday's day number (ISO date
strings are in bijection with day numbers). -/
def getWeekKey (date : Int) : Int := mondayOf date

/-- A time entry as consumed by the aggregator: `spentAt` at day
granularity, `timeSpent` in seconds. -/
structure TimeLog where
  spentAt : Int
  timeSpent : Int
deriving DecidableEq

/-- A week bucket of `groupTimeLogsByWeek`. -/
structure WeekBucket where
  weekStart : Int
  logs : List TimeLog
  totalSeconds : Int
deriving DecidableEq

/-- A day bucket of the day-grouping step of `loadTimeLogs`. -/
structure DayBucket where
  date : Int
  logs : List TimeLog
  totalSeconds : Int
deriving DecidableEq

/-- The week pre-seeding loop of `groupTimeLogsByWeek` lines 690-698:
starting from `w`, emit week starts stepping by 7 days while
`w <= last && w <= today`.  Structural recursion on a fuel that provably
dominates the number of iterations. -/
def genWeeksAux : Nat → Int → Int → Int → List Int
  | 0, _, _, _ => []
  | fuel + 1, w, last, today =>
      if w ≤ last ∧ w ≤ today then w :: genWeeksAux fuel (w + 7) last today else []

/-- The list of pre-seeded week starts for a month whose last day is
`last`, generated from Monday `w`, with generation stopped at `today`. -/
def genWeeks (w last today : Int) : List Int :=
  genWeeksAux (last + 7 - w).toNat w last today

/-- The bucket stored under week key `w`: the logs whose week key is `w`
(in input order) and their running `totalSeconds` sum. -/
def mkWeekBucket (timeLogs : List TimeLog) (w : Int) : WeekBucket :=
  { weekStart := w
  , logs := timeLogs.filter (fun l => getWeekKey l.spentAt == w)
  , totalSeconds :=
      (timeLogs.filter (fun l => getWeekKey l.spentAt == w)).foldl
        (fun acc l => acc + l.timeSpent) 0 }

/-- Descending order on week buckets: the JS comparator
`(a, b) => b.weekStart - a.weekStart`. -/
def weekDescOrder (a b : WeekBucket) : Prop := b.weekStart ≤ a.weekStart

instance : DecidableRel weekDescOrder := fun a b => Int.decLe b.weekStart a.weekStart

instance : IsTotal WeekBucket weekDescOrder :=
  ⟨fun a b =>
    show b.weekStart ≤ a.weekStart ∨ a.weekStart ≤ b.weekStart from
      (Int.le_total a.weekStart b.weekStart).symm⟩

instance : IsTrans WeekBucket weekDescOrder :=
  ⟨fun a b c hab hbc =>
    show c.weekStart ≤ a.weekStart from
      le_trans (show c.weekStart ≤ b.weekStart from hbc)
        (show b.weekStart ≤ a.weekStart from hab)⟩

/-- Source `app.js` `groupTimeLogsByWeek`: pre-seed the Monday-aligned weeks of
the reference month (first day `first`, last day `last`) up to `today`,
assign each log to the pre-seeded bucket matching its week key (logs
with no matching bucket are skipped), and sort the buckets most recent
week first.  `Object.values` yields the buckets in seeding order; the
JS `sort` with the descending comparator is modelled by `insertionSort`
(week keys are pairwise distinct, so any sort yields the same list). -/
def groupTimeLogsByWeek (timeLogs : List TimeLog) (first last today : Int) :
    List WeekBucket :=
  List.insertionSort weekDescOrder
    ((genWeeks (mondayOf first) last today).map (mkWeekBucket timeLogs))

/-- The day keys of the `logsByDay` object of `loadTimeLogs` lines
616-628, in first-occurrence order (JS object insertion order). -/
def dayKeysInOrder : List TimeLog → List Int
  | [] => []
  | l :: ls => l.spentAt :: (dayKeysInOrder ls).filter (fun d => d ≠ l.spentAt)

/-- The day bucket keyed by date `d`: the logs of that calendar date and
their `totalSeconds` sum. -/
def mkDayBucket (logs : List TimeLog) (d : Int) : DayBucket :=
  { date := d
  , logs := logs.filter (fun l => l.spentAt == d)
  , totalSeconds :=
      (logs.filter (fun l => l.spentAt == d)).foldl
        (fun acc l => acc + l.timeSpent) 0 }

/-- Ascending order on day buckets: the JS comparator
`(a, b) => a.date - b.date` of `loadTimeLogs` line 631. -/
def dayAscOrder (a b : DayBucket) : Prop := a.date ≤ b.date

instance : DecidableRel dayAscOrder := fun a b => Int.decLe a.date b.date

instance : IsTotal DayBucket dayAscOrder :=
  ⟨fun a b =>
    show a.date ≤ b.date ∨ b.date ≤ a.date from Int.le_total a.date b.date⟩

instance : IsTrans DayBucket dayAscOrder :=
  ⟨fun a b c hab hbc =>
    show a.date ≤ c.date from
      le_trans (show a.date ≤ b.date from hab) (show b.date ≤ c.date from hbc)⟩

/-- The day-grouping step of `loadTimeLogs` lines 614-631, applied to
one week bucket's logs: group by calendar date of `spentAt`, then sort
the day buckets by date ascending. -/
def groupLogsByDay (logs : List TimeLog) : List DayBucket :=
  List.insertionSort dayAscOrder ((dayKeysInOrder logs).map (mkDayBucket logs))

/-! ## Duration formatting (`gitlab.js`) -/

/-- The `hours` local of `gitlab.js` `formatDuration`:
`Math.floor(seconds / 3600)` (integer division on the non-negative
values reached in the else-branch). -/
def fdHours (seconds : Int) : Int := seconds / 3600

/-- The `minutes` local of `formatDuration`:
`Math.floor((seconds % 3600) / 60)`. -/
def fdMinutes (seconds : Int) : Int := seconds % 3600 / 60

/-- The `parts` local of `formatDuration`: `"Hh"` then `"Mm"`, each
omitted when its component is zero. -/
def fdParts (seconds : Int) : List String :=
  (if fdHours seconds > 0 then [toString (fdHours seconds) ++ ("h")] else []) ++
    (if fdMinutes seconds > 0 then [toString (fdMinutes seconds) ++ ("m")] else [])

/-- Source `gitlab.js` `GitLabAPI.formatDuration`: `"Hh Mm"` rendering of a
number of seconds; `!seconds || seconds < 0` yields `"0m"`, hours and
minutes are floored, zero components are omitted, and an empty parts
list (`parts.join(" ")` guarded by `parts.length > 0`) renders as
`"0m"`. -/
def formatDuration (seconds : Int) : String :=
  if seconds = 0 ∨ seconds < 0 then ("0m")
  else if (fdParts seconds).length > 0 then String.intercalate (" ") (fdParts seconds)
  else ("0m")

/-! ## Week-generation lemmas -/

theorem le_of_mem_genWeeksAux {fuel : Nat} :
    ∀ {w last today x : Int}, x ∈ genWeeksAux fuel w last today → w ≤ x := by
  induction fuel with
  | zero => intro w last today x h; simp [genWeeksAux] at h
  | succ fuel ih =>
    intro w last today x h
    unfold genWeeksAux at h
    split at h
    · rcases List.mem_cons.mp h with rfl | hm
      · exact le_refl x
      · have := ih hm; omega
    · simp at h

theorem genWeeksAux_pairwise (fuel : Nat) :
    ∀ w last today : Int, (genWeeksAux fuel w last today).Pairwise (· < ·) := by
  induction fuel with
  | zero => intro w last today; simp [genWeeksAux]
  | succ fuel ih =>
    intro w last today
    unfold genWeeksAux
    split
    · exact List.Pairwise.cons
        (fun x hx => by have := le_of_mem_genWeeksAux hx; omega)
        (ih (w + 7) last today)
    · exact List.Pairwise.nil

theorem mem_genWeeksAux {fuel : Nat} :
    ∀ {w last today : Int}, last + 7 - w ≤ 7 * (fuel : Int) → ∀ x : Int,
      (x ∈ genWeeksAux fuel w last today ↔
        (∃ k : Nat, x = w + 7 * (k : Int)) ∧ x ≤ last ∧ x ≤ today) := by
  induction fuel with
  | zero =>
    intro w last today hfuel x
    simp only [genWeeksAux, List.not_mem_nil, false_iff]
    rintro ⟨⟨k, rfl⟩, hl, ht⟩
    omega
  | succ fuel ih =>
    intro w last today hfuel x
    unfold genWeeksAux
    split
    · rename_i hc
      rw [List.mem_cons, ih (by omega)]
      constructor
      · rintro (rfl | ⟨⟨k, rfl⟩, hl, ht⟩)
        · exact ⟨⟨0, by omega⟩, hc.1, hc.2⟩
        · exact ⟨⟨k + 1, by omega⟩, hl, ht⟩
      · rintro ⟨⟨k, rfl⟩, hl, ht⟩
        cases k with
        | zero => left; omega
        | succ k => right; exact ⟨⟨k, by omega⟩, hl, ht⟩
    · rename_i hc
      simp only [List.not_mem_nil, false_iff]
      rintro ⟨⟨k, rfl⟩, hl, ht⟩
      have hk : (0 : Int) ≤ 7 * (k : Int) := by positivity
      exact hc ⟨by omega, by omega⟩

theorem mem_genWeeks (w last today x : Int) :
    x ∈ genWeeks w last today ↔
      (∃ k : Nat, x = w + 7 * (k : Int)) ∧ x ≤ last ∧ x ≤ today := by
  unfold genWeeks
  exact mem_genWeeksAux (by omega) x

theorem genWeeks_pairwise (w last today : Int) :
    (genWeeks w last today).Pairwise (· < ·) :=
  genWeeksAux_pairwise _ w last today

theorem jsGetDay_mondayOf (d : Int) : jsGetDay (mondayOf d) = 1 := by
  unfold mondayOf daysToSubtract jsGetDay
  split <;> omega

theorem mondayOf_le (d : Int) : mondayOf d ≤ d ∧ d ≤ mondayOf d + 6 := by
  unfold mondayOf daysToSubtract jsGetDay
  split <;> omega

theorem jsGetDay_add_mul (d : Int) (k : Nat) : jsGetDay (d + 7 * (k : Int)) = jsGetDay d := by
  unfold jsGetDay
  omega

/-- The pre-seeded week starts of `groupTimeLogsByWeek` for a month
`[first, last]` viewed on day `today` are exactly the Mondays `w` with
`w ≤ last`, `w ≤ today` and `first ≤ w + 6` (i.e. the Monday starts of
the weeks `[w, w + 6]` meeting the month up to `today`). -/
theorem mem_genWeeks_mondayOf (first last today w : Int) :
    w ∈ genWeeks (mondayOf first) last today ↔
      jsGetDay w = 1 ∧ w ≤ last ∧ w ≤ today ∧ first ≤ w + 6 := by
  rw [mem_genWeeks]
  constructor
  · rintro ⟨⟨k, rfl⟩, hl, ht⟩
    refine ⟨?_, hl, ht, ?_⟩
    · rw [jsGetDay_add_mul, jsGetDay_mondayOf]
    · have := mondayOf_le first
      have hk : (0 : Int) ≤ 7 * (k : Int) := by positivity
      omega
  · rintro ⟨hmon, hl, ht, hfw⟩
    refine ⟨?_, hl, ht⟩
    have h1 := jsGetDay_mondayOf first
    have h2 := mondayOf_le first
    unfold jsGetDay at hmon h1
    refine ⟨((w - mondayOf first) / 7).toNat, ?_⟩
    omega

/-! ## Bucket membership lemmas -/

theorem groupTimeLogsByWeek_perm (logs : List TimeLog) (first last today : Int) :
    (groupTimeLogsByWeek logs first last today).Perm
      ((genWeeks (mondayOf first) last today).map (mkWeekBucket logs)) :=
  List.perm_insertionSort _ _

theorem map_weekStart_mk (logs : List TimeLog) (ws : List Int) :
    (ws.map (mkWeekBucket logs)).map WeekBucket.weekStart = ws := by
  induction ws with
  | nil => rfl
  | cons w ws ih => simp only [List.map_cons, ih, mkWeekBucket]

theorem mem_groupTimeLogsByWeek_iff (logs : List TimeLog) (first last today : Int)
    (b : WeekBucket) :
    b ∈ groupTimeLogsByWeek logs first last today ↔
      ∃ w ∈ genWeeks (mondayOf first) last today, b = mkWeekBucket logs w := by
  rw [(groupTimeLogsByWeek_perm logs first last today).mem_iff, List.mem_map]
  constructor
  · rintro ⟨w, hw, rfl⟩; exact ⟨w, hw, rfl⟩
  · rintro ⟨w, hw, rfl⟩; exact ⟨w, hw, rfl⟩

theorem mem_mkWeekBucket_logs (logs : List TimeLog) (w : Int) (l : TimeLog) :
    l ∈ (mkWeekBucket logs w).logs ↔ l ∈ logs ∧ getWeekKey l.spentAt = w := by
  simp [mkWeekBucket, List.mem_filter]

theorem mem_dayKeysInOrder (logs : List TimeLog) (x : Int) :
    x ∈ dayKeysInOrder logs ↔ ∃ l ∈ logs, l.spentAt = x := by
  induction logs with
  | nil => simp [dayKeysInOrder]
  | cons l ls ih =>
    unfold dayKeysInOrder
    rw [List.mem_cons]
    by_cases hx : x = l.spentAt
    · subst hx
      simp only [true_or, true_iff]
      exact ⟨l, List.mem_cons_self l ls, rfl⟩
    · simp only [hx, false_or, List.mem_filter, ih, decide_eq_true_eq]
      constructor
      · rintro ⟨⟨a, ha, rfl⟩, -⟩
        exact ⟨a, List.mem_cons_of_mem l ha, rfl⟩
      · rintro ⟨a, ha, rfl⟩
        rcases List.mem_cons.mp ha with rfl | ha
        · exact absurd rfl hx
        · exact ⟨⟨a, ha, rfl⟩, hx⟩

theorem mem_groupLogsByDay_iff (logs : List TimeLog) (d : DayBucket) :
    d ∈ groupLogsByDay logs ↔
      ∃ k ∈ dayKeysInOrder logs, d = mkDayBucket logs k := by
  unfold groupLogsByDay
  rw [(List.perm_insertionSort dayAscOrder _).mem_iff, List.mem_map]
  constructor
  · rintro ⟨k, hk, rfl⟩; exact ⟨k, hk, rfl⟩
  · rintro ⟨k, hk, rfl⟩; exact ⟨k, hk, rfl⟩

theorem mem_mkDayBucket_logs (logs : List TimeLog) (k : Int) (l : TimeLog) :
    l ∈ (mkDayBucket logs k).logs ↔ l ∈ logs ∧ l.spentAt = k := by
  simp [mkDayBucket, List.mem_filter]

/-! ## Claims C1, C2, C3 -/

/-- Claim C1: for every reference month (first day `first`, last day `last`,
current date `today`) and every entry list, the buckets of
`groupTimeLogsByWeek` carry exactly the Monday-aligned week starts `w`
of the weeks `[w, w + 6]` that meet the month interval cut off at
`today` (`w ≤ last ∧ w ≤ today ∧ first ≤ w + 6`) — weeks are pre-seeded
even when empty, no bucket starts after `today` — and the week starts
are sorted strictly descending (hence no duplicate week keys). -/
theorem claim1_weekStarts (logs : List TimeLog) (first last today : Int) :
    (∀ b ∈ groupTimeLogsByWeek logs first last today,
        jsGetDay b.weekStart = 1 ∧ b.weekStart ≤ today) ∧
    (∀ w : Int,
        w ∈ (groupTimeLogsByWeek logs first last today).map WeekBucket.weekStart ↔
          jsGetDay w = 1 ∧ w ≤ last ∧ w ≤ today ∧ first ≤ w + 6) ∧
    ((groupTimeLogsByWeek logs first last today).map WeekBucket.weekStart).Pairwise
      (· > ·) := by
  have hperm := groupTimeLogsByWeek_perm logs first last today
  have hmap : ((groupTimeLogsByWeek logs first last today).map
      WeekBucket.weekStart).Perm (genWeeks (mondayOf first) last today) := by
    have h2 := hperm.map WeekBucket.weekStart
    rwa [map_weekStart_mk] at h2
  refine ⟨?_, ?_, ?_⟩
  · intro b hb
    have hw := (hmap.mem_iff).mp (List.mem_map_of_mem WeekBucket.weekStart hb)
    rw [mem_genWeeks_mondayOf] at hw
    exact ⟨hw.1, hw.2.2.1⟩
  · intro w
    rw [hmap.mem_iff, mem_genWeeks_mondayOf]
  · have hsorted : (groupTimeLogsByWeek logs first last today).Pairwise weekDescOrder :=
      List.sorted_insertionSort weekDescOrder _
    have hge : ((groupTimeLogsByWeek logs first last today).map
        WeekBucket.weekStart).Pairwise (fun a b : Int => b ≤ a) := by
      rw [List.pairwise_map]
      exact hsorted.imp (fun h => h)
    have hnodup : ((groupTimeLogsByWeek logs first last today).map
        WeekBucket.weekStart).Pairwise (fun a b : Int => a ≠ b) := by
      have := (genWeeks_pairwise (mondayOf first) last today).imp
        (fun h => ne_of_lt h)
      exact hmap.symm.pairwise this (fun h => (Ne.symm h))
    exact (hge.and hnodup).imp (fun h => lt_of_le_of_ne h.1 (Ne.symm h.2))

/-- Claim C2: an entry whose week key has a pre-seeded bucket for the
reference month lands in exactly one week bucket — the one whose
`weekStart` is the Monday of its week — and, within that week's logs,
in exactly one day bucket — the one keyed by its calendar date. -/
theorem claim2_unique_buckets (logs : List TimeLog) (first last today : Int)
    (E : TimeLog) (hE : E ∈ logs)
    (hin : getWeekKey E.spentAt ∈ genWeeks (mondayOf first) last today) :
    ∃ b ∈ groupTimeLogsByWeek logs first last today,
      b.weekStart = getWeekKey E.spentAt ∧ E ∈ b.logs ∧
      (∀ b' ∈ groupTimeLogsByWeek logs first last today, E ∈ b'.logs → b' = b) ∧
      ∃ d ∈ groupLogsByDay b.logs,
        d.date = E.spentAt ∧ E ∈ d.logs ∧
        ∀ d' ∈ groupLogsByDay b.logs, E ∈ d'.logs → d' = d := by
  refine ⟨mkWeekBucket logs (getWeekKey E.spentAt), ?_, rfl, ?_, ?_, ?_⟩
  · exact (mem_groupTimeLogsByWeek_iff logs first last today _).mpr
      ⟨getWeekKey E.spentAt, hin, rfl⟩
  · exact (mem_mkWeekBucket_logs logs _ E).mpr ⟨hE, rfl⟩
  · intro b' hb' hEb'
    obtain ⟨w, _, rfl⟩ := (mem_groupTimeLogsByWeek_iff logs first last today b').mp hb'
    obtain ⟨-, hkey⟩ := (mem_mkWeekBucket_logs logs w E).mp hEb'
    rw [hkey]
  · have hEw : E ∈ (mkWeekBucket logs (getWeekKey E.spentAt)).logs :=
      (mem_mkWeekBucket_logs logs _ E).mpr ⟨hE, rfl⟩
    refine ⟨mkDayBucket (mkWeekBucket logs (getWeekKey E.spentAt)).logs E.spentAt,
      ?_, rfl, ?_, ?_⟩
    · exact (mem_groupLogsByDay_iff _ _).mpr
        ⟨E.spentAt, (mem_dayKeysInOrder _ E.spentAt).mpr ⟨E, hEw, rfl⟩, rfl⟩
    · exact (mem_mkDayBucket_logs _ _ E).mpr ⟨hEw, rfl⟩
    · intro d' hd' hEd'
      obtain ⟨k, -, rfl⟩ := (mem_groupLogsByDay_iff _ d').mp hd'
      obtain ⟨-, hdk⟩ := (mem_mkDayBucket_logs _ k E).mp hEd'
      rw [hdk]

/-- Witness for claim C2: the single entry on day 33 (a Tuesday; its week's
Monday is day 32) is bucketed for the month `[32, 61]` seen on day 100. -/
theorem claim2_unique_buckets_witness :
    ∃ b ∈ groupTimeLogsByWeek [⟨33, 3600⟩] 32 61 100,
      b.weekStart = getWeekKey (33 : Int) ∧ (⟨33, 3600⟩ : TimeLog) ∈ b.logs ∧
      (∀ b' ∈ groupTimeLogsByWeek [⟨33, 3600⟩] 32 61 100,
        (⟨33, 3600⟩ : TimeLog) ∈ b'.logs → b' = b) ∧
      ∃ d ∈ groupLogsByDay b.logs,
        d.date = (33 : Int) ∧ (⟨33, 3600⟩ : TimeLog) ∈ d.logs ∧
        ∀ d' ∈ groupLogsByDay b.logs, (⟨33, 3600⟩ : TimeLog) ∈ d'.logs → d' = d :=
  claim2_unique_buckets [⟨33, 3600⟩] 32 61 100 ⟨33, 3600⟩ (by decide) (by decide)

/-- Claim C3: an entry whose computed week key has no pre-seeded bucket for
the reference month is silently dropped: it appears in no week bucket
and in no day bucket of the result.  (No error is possible: the
embedding of `groupTimeLogsByWeek` is a total function; the source's
corresponding path merely `return`s out of the `forEach` callback.) -/
theorem claim3_dropped (logs : List TimeLog) (first last today : Int)
    (E : TimeLog)
    (hout : getWeekKey E.spentAt ∉ genWeeks (mondayOf first) last today) :
    ∀ b ∈ groupTimeLogsByWeek logs first last today,
      E ∉ b.logs ∧ ∀ d ∈ groupLogsByDay b.logs, E ∉ d.logs := by
  intro b hb
  obtain ⟨w, hw, rfl⟩ := (mem_groupTimeLogsByWeek_iff logs first last today b).mp hb
  have hnb : E ∉ (mkWeekBucket logs w).logs := by
    intro hEb
    obtain ⟨-, hkey⟩ := (mem_mkWeekBucket_logs logs w E).mp hEb
    exact hout (hkey ▸ hw)
  refine ⟨hnb, ?_⟩
  intro d hd hEd
  obtain ⟨k, -, rfl⟩ := (mem_groupLogsByDay_iff _ d).mp hd
  exact hnb ((mem_mkDayBucket_logs _ k E).mp hEd).1

/-- Witness for claim C3: an entry on day 200 (whose Monday, day 200, is
past the month `[32, 61]`) is not in the logs of the bucket of week 60,
a pre-seeded bucket of that month. -/
theorem claim3_dropped_witness :
    (⟨200, 60⟩ : TimeLog) ∉ (mkWeekBucket [⟨200, 60⟩] 60).logs :=
  ((claim3_dropped [⟨200, 60⟩] 32 61 100 ⟨200, 60⟩ (by decide))
    (mkWeekBucket [⟨200, 60⟩] 60) (by decide)).1

/-! ## Store lemmas for the cache claims -/

theorem jsStartsWith_keyFor (t : String) :
    jsStartsWith (keyFor t) ("appStore:") = true :=
  jsStartsWith_append ("appStore:") t

theorem getProjects_clearAll (ls : LocalStorage) : getProjects (clearAll ls) = none := by
  unfold getProjects
  rw [getItem_clearAll, if_pos (jsStartsWith_keyFor ("projects"))]
  rfl

theorem getIssues_clearAll (ls : LocalStorage) (p : String) :
    getIssues (clearAll ls) p = none := by
  unfold getIssues issuesKey
  rw [getItem_clearAll, if_pos (jsStartsWith_keyFor ("issues:" ++ p))]
  rfl

theorem getTimeLogs_clearAll (ls : LocalStorage) (m : String) :
    getTimeLogs (clearAll ls) m = none := by
  unfold getTimeLogs timelogsKey
  rw [getItem_clearAll, if_pos (jsStartsWith_keyFor ("timelogs:" ++ m))]
  rfl

theorem issuesKey_inj {p p' : String} (h : issuesKey p' = issuesKey p) : p' = p := by
  unfold issuesKey keyFor at h
  exact string_append_left_cancel (string_append_left_cancel h)

theorem timelogsKey_inj {m m' : String} (h : timelogsKey m' = timelogsKey m) : m' = m := by
  unfold timelogsKey keyFor at h
  exact string_append_left_cancel (string_append_left_cancel h)

/-! ## Claims C4, C5, C6, C7, C8, C10 -/

/-- Claim C4: saving new credentials clears every cached collection: after
`saveCredentials`, `getProjects`, `getIssues p` for every project path
`p`, and `getTimeLogs m` for every period `m` all return `null`. -/
theorem claim4_saveCredentials_clears_cache (ls : LocalStorage)
    (username token repository timestamp : String) :
    getProjects (saveCredentials ls username token repository timestamp) = none ∧
    (∀ p, getIssues (saveCredentials ls username token repository timestamp) p = none) ∧
    (∀ m, getTimeLogs (saveCredentials ls username token repository timestamp) m = none) :=
  ⟨getProjects_clearAll _, fun p => getIssues_clearAll _ p,
    fun m => getTimeLogs_clearAll _ m⟩

/-- Counterexample to claim C5: with a cached project list, clearing the
credentials (the whole cache effect of the logout handler) leaves the
projects cache readable — `getProjects` does not return `null`. -/
theorem claim5_counterexample :
    getProjects (clearCredentials (storeProjects [] (Json.arr [Json.num 1]))) =
      some (Json.arr [Json.num 1]) ∧
    getProjects (clearCredentials (storeProjects [] (Json.arr [Json.num 1]))) ≠
      none := by
  refine ⟨rfl, ?_⟩
  intro h
  rw [show getProjects (clearCredentials (storeProjects [] (Json.arr [Json.num 1]))) =
      some (Json.arr [Json.num 1]) from rfl] at h
  exact Option.noConfusion h

/-- Claim C5 (amended): `clearCredentials` — all the logout handler invokes
on stores — removes only the credential record; the cache store is left
untouched (every cache getter reads the same value as before), and the
cascade-clear of the cache instead happens on `saveCredentials`. -/
theorem claim5_amended (ls : LocalStorage) :
    getItem (clearCredentials ls) AUTH_STORAGE_KEY = none ∧
    getProjects (clearCredentials ls) = getProjects ls ∧
    (∀ p, getIssues (clearCredentials ls) p = getIssues ls p) ∧
    (∀ m, getTimeLogs (clearCredentials ls) m = getTimeLogs ls m) := by
  refine ⟨getItem_removeItem_self ls AUTH_STORAGE_KEY, ?_, ?_, ?_⟩
  · unfold getProjects clearCredentials
    rw [getItem_removeItem_ne ls _ _ (keyFor_ne_auth ("projects"))]
  · intro p
    unfold getIssues clearCredentials issuesKey
    rw [getItem_removeItem_ne ls _ _ (keyFor_ne_auth ("issues:" ++ p))]
  · intro m
    unfold getTimeLogs clearCredentials timelogsKey
    rw [getItem_removeItem_ne ls _ _ (keyFor_ne_auth ("timelogs:" ++ m))]

/-- Claim C6: the cache getters never throw — they return `null` both when
nothing is stored under the key and when the stored payload is not
parseable JSON (the embedding is total; the source wraps each getter
body in try/catch and `safeParse` swallows parse exceptions). -/
theorem claim6_get_miss_or_malformed (ls : LocalStorage) (p m s : String) :
    (getItem ls (keyFor ("projects")) = none → getProjects ls = none) ∧
    (getItem ls (keyFor ("projects")) = some (StoredVal.malformed s) →
      getProjects ls = none) ∧
    (getItem ls (issuesKey p) = none → getIssues ls p = none) ∧
    (getItem ls (issuesKey p) = some (StoredVal.malformed s) →
      getIssues ls p = none) ∧
    (getItem ls (timelogsKey m) = none → getTimeLogs ls m = none) ∧
    (getItem ls (timelogsKey m) = some (StoredVal.malformed s) →
      getTimeLogs ls m = none) := by
  refine ⟨?_, ?_, ?_, ?_, ?_, ?_⟩ <;>
    (intro h; first
      | (unfold getProjects; rw [h]; rfl)
      | (unfold getIssues; rw [h]; rfl)
      | (unfold getTimeLogs; rw [h]; rfl))

/-- Witness for claim C6: a miss and a malformed payload both read as
`null`. -/
theorem claim6_witness :
    getProjects [] = none ∧
    getProjects [(keyFor ("projects"), StoredVal.malformed ("oops"))] = none :=
  ⟨(claim6_get_miss_or_malformed [] ("p") ("m") ("oops")).1 rfl,
   (claim6_get_miss_or_malformed [(keyFor ("projects"), StoredVal.malformed ("oops"))]
      "p" "m" "oops").2.1 rfl⟩

/-- Claim C7: keyed cache operations touch only their own key — storing or
clearing issues for path `p` leaves every other path's issues intact,
and the delete-time-entry flow clears exactly the `"YYYY-MM"` period of
the deleted entry's spent date, leaving every other period's time-log
cache and the projects cache untouched. -/
theorem claim7_keyed_isolation (ls : LocalStorage) (p p' : String) (v : Json)
    (year monthIndex : Nat) (m' : String) (hp : p' ≠ p)
    (hm : m' ≠ periodKeyOf year monthIndex) :
    getIssues (storeIssues ls p v) p' = getIssues ls p' ∧
    getIssues (clearIssues ls p) p' = getIssues ls p' ∧
    getTimeLogs (handleDeleteTimelogCache ls year monthIndex) m' = getTimeLogs ls m' ∧
    getTimeLogs (handleDeleteTimelogCache ls year monthIndex)
      (periodKeyOf year monthIndex) = none ∧
    getProjects (handleDeleteTimelogCache ls year monthIndex) = getProjects ls := by
  refine ⟨?_, ?_, ?_, ?_, ?_⟩
  · unfold getIssues storeIssues
    rw [getItem_setItem_ne ls _ _ _ (fun h => hp (issuesKey_inj h))]
  · unfold getIssues clearIssues
    rw [getItem_removeItem_ne ls _ _ (fun h => hp (issuesKey_inj h))]
  · unfold getTimeLogs handleDeleteTimelogCache clearTimeLogs
    rw [getItem_removeItem_ne ls _ _ (fun h => hm (timelogsKey_inj h))]
  · unfold getTimeLogs handleDeleteTimelogCache clearTimeLogs
    rw [getItem_removeItem_self]
    rfl
  · unfold getProjects handleDeleteTimelogCache clearTimeLogs
    rw [getItem_removeItem_ne ls _ _
      (projectsKey_ne_timelogsKey (periodKeyOf year monthIndex))]

/-- Witness for claim C7: paths `"a/b"` vs `"a/c"` and periods `"2024-02"`
vs the March 2024 period key of the deleted entry. -/
theorem claim7_witness :
    getIssues (storeIssues [] ("a/b") (Json.arr [])) ("a/c") = getIssues [] ("a/c") ∧
    getIssues (clearIssues [] ("a/b")) ("a/c") = getIssues [] ("a/c") ∧
    getTimeLogs (handleDeleteTimelogCache [] 2024 2) ("2024-02") =
      getTimeLogs [] ("2024-02") ∧
    getTimeLogs (handleDeleteTimelogCache [] 2024 2) (periodKeyOf 2024 2) = none ∧
    getProjects (handleDeleteTimelogCache [] 2024 2) = getProjects [] :=
  claim7_keyed_isolation [] ("a/b") ("a/c") (Json.arr []) 2024 2 ("2024-02")
    (by decide) (by decide)

/-- Claim C8: storing a JSON array and immediately reading the same kind
and key back returns the stored value, for all three cache kinds. -/
theorem claim8_roundtrip (ls : LocalStorage) (xs : List Json) (p m : String) :
    getProjects (storeProjects ls (Json.arr xs)) = some (Json.arr xs) ∧
    getIssues (storeIssues ls p (Json.arr xs)) p = some (Json.arr xs) ∧
    getTimeLogs (storeTimeLogs ls m (Json.arr xs)) m = some (Json.arr xs) := by
  refine ⟨?_, ?_, ?_⟩
  · unfold getProjects storeProjects
    rw [getItem_setItem_self]
    rfl
  · unfold getIssues storeIssues
    rw [getItem_setItem_self]
    rfl
  · unfold getTimeLogs storeTimeLogs
    rw [getItem_setItem_self]
    rfl

/-- Claim C10: `clearAll` removes exactly the `localStorage` entries whose
key starts with `"appStore:"`; in particular the credential record under
`"userAuth"` and the favorites under `"appFavorites"` survive it, and a
fresh login (`saveCredentials`, which ends in `clearAll`) preserves the
favorites and the just-saved credential record. -/
theorem claim10_clearAll_frame (ls : LocalStorage)
    (username token repository timestamp : String) (k : String) :
    getItem (clearAll ls) k =
      (if jsStartsWith k ("appStore:") then none else getItem ls k) ∧
    getItem (clearAll ls) AUTH_STORAGE_KEY = getItem ls AUTH_STORAGE_KEY ∧
    getItem (clearAll ls) FAVORITES_KEY = getItem ls FAVORITES_KEY ∧
    getItem (saveCredentials ls username token repository timestamp) FAVORITES_KEY =
      getItem ls FAVORITES_KEY ∧
    getItem (saveCredentials ls username token repository timestamp) AUTH_STORAGE_KEY =
      some (StoredVal.ser (authRecord username token repository timestamp)) := by
  refine ⟨getItem_clearAll ls k, ?_, ?_, ?_, ?_⟩
  · rw [getItem_clearAll, if_neg (by decide)]
  · rw [getItem_clearAll, if_neg (by decide)]
  · unfold saveCredentials
    rw [getItem_clearAll, if_neg (by decide),
      getItem_setItem_ne ls _ _ _ (by decide)]
  · unfold saveCredentials
    rw [getItem_clearAll, if_neg (by decide), getItem_setItem_self]

/-! ## Claim C9 -/

theorem formatDuration_sub_minute (s : Int) (h0 : 0 ≤ s) (h60 : s < 60) :
    formatDuration s = "0m" := by
  rcases eq_or_lt_of_le h0 with h | h
  · rw [← h]; rfl
  · unfold formatDuration
    rw [if_neg (by omega)]
    have hp : fdParts s = [] := by
      unfold fdParts fdHours fdMinutes
      rw [if_neg (by omega), if_neg (by omega)]
      rfl
    rw [hp, if_neg (by decide)]

/-- Claim C9: `formatDuration 5400 = "1h 30m"`, `formatDuration 0 = "0m"`,
`formatDuration 45 = "0m"`; for every non-negative number of seconds the
sub-minute remainder is dropped (the rendering equals that of the value
floored to a whole minute, so it is never rounded up), and a duration
with no whole hours or minutes renders as `"0m"`. -/
theorem claim9_formatDuration (s : Int) :
    formatDuration 5400 = "1h 30m" ∧ formatDuration 0 = "0m" ∧
    formatDuration 45 = "0m" ∧
    (0 ≤ s → formatDuration s = formatDuration (60 * (s / 60))) ∧
    (0 ≤ s → s < 60 → formatDuration s = "0m") := by
  refine ⟨by decide, rfl, rfl, ?_, formatDuration_sub_minute s⟩
  intro hs
  rcases lt_or_le s 60 with h60 | h60
  · have h1 : 60 * (s / 60) = 0 := by omega
    rw [h1, formatDuration_sub_minute s hs h60]
    rfl
  · have hp : fdParts (60 * (s / 60)) = fdParts s := by
      unfold fdParts fdHours fdMinutes
      rw [show 60 * (s / 60) / 3600 = s / 3600 by omega,
        show 60 * (s / 60) % 3600 / 60 = s % 3600 / 60 by omega]
    unfold formatDuration
    rw [hp, if_neg (show ¬(s = 0 ∨ s < 0) by omega),
      if_neg (show ¬(60 * (s / 60) = 0 ∨ 60 * (s / 60) < 0) by omega)]

/-- Witness for claim C9: 125 seconds renders like 120 seconds (the 5-second
remainder is dropped) and 59 seconds renders as `"0m"`. -/
theorem claim9_witness :
    formatDuration 125 = formatDuration (60 * (125 / 60)) ∧
    formatDuration 59 = "0m" :=
  ⟨(claim9_formatDuration 125).2.2.2.1 (by decide),
   (claim9_formatDuration 59).2.2.2.2 (by decide) (by decide)⟩
